import Mathlib

/-
Verification of the farad automatic-differentiation library
(The-Pyoneers/cs107-FinalProject).

Shallow embedding of the two AD engines:

* `farad/rnode.py` — reverse mode.  An `Rnode` is a mutable Python object
  with fields `value`, `children` (a list of `(weight, child)` pairs) and
  `grad_value` (`None` until cached).  Arithmetic operators create a fresh
  node and append edges to their operands' `children` lists.  We model the
  heap of nodes as a list `RState` indexed by creation order: node ids are
  list positions, and every operator is a function `RState → ... → RState × Nat`
  returning the updated heap and the id of the node it created.  Python
  floats are modelled as exact rationals `ℚ`; transcendental functions
  (`np.log`, `np.exp`, ...) whose values are irrational are abstracted as
  function parameters — every claim below depends only on control flow and
  on rational arithmetic, never on the value of such a function.

* `farad/dual.py` — forward mode.  A `Dual` holds `val` and `der`; the
  claims under check use scalar derivatives, so `der : ℚ`.

* `farad/elem.py` — the elementary-function library, embedded per dispatch
  branch: the Python code dispatches by attribute access (Rnode branch
  first, then Dual, then plain numeric), so with a known input type the
  branch taken is determined and each branch is embedded as its own
  function.
-/

namespace Farad

/-- One reverse-mode graph node, mirroring `Rnode.__init__`
(`rnode.py` lines 10–29): `value`, the `children` list of
`(weight, child-id)` edges, and the optional cached `grad_value`. -/
structure RNodeData where
  value : ℚ
  children : List (ℚ × Nat)
  grad_value : Option ℚ
deriving DecidableEq, Repr

instance : Inhabited RNodeData := ⟨⟨0, [], none⟩⟩

/-- The heap of reverse-mode nodes, indexed by creation order. -/
abbrev RState := List RNodeData

/-- `x.value` of the node with id `i`. -/
def valueAt (s : RState) (i : Nat) : ℚ := (s.getD i default).value

/-- `x.children` of the node with id `i`. -/
def childrenAt (s : RState) (i : Nat) : List (ℚ × Nat) := (s.getD i default).children

/-- `x.grad_value` of the node with id `i`. -/
def gradAt (s : RState) (i : Nat) : Option ℚ := (s.getD i default).grad_value

/-- `j.children.append((w, z))`. -/
def appendEdge (s : RState) (j : Nat) (w : ℚ) (z : Nat) : RState :=
  s.set j { s.getD j default with children := (s.getD j default).children ++ [(w, z)] }

/-- The shape shared by every `Rnode` operator: `z = Rnode(v)` followed by a
sequence of `operand.children.append((weight, z))` calls, one per edge.
Sequential appends model Python exactly, including the `x * x` case where
both appends target the same node. -/
def record (s : RState) (v : ℚ) (edges : List (ℚ × Nat)) : RState × Nat :=
  let z := s.length
  (edges.foldl (fun t e => appendEdge t e.2 e.1 z) (s ++ [⟨v, [], none⟩]), z)

/-- `x.grad_value = g` (plain attribute assignment, used to seed the output). -/
def setGrad (s : RState) (i : Nat) (g : ℚ) : RState :=
  s.set i { s.getD i default with grad_value := some g }

/-- `Rnode.clear` (`rnode.py` lines 31–53): reset `children` to `[]` and
`grad_value` to `None`. -/
def clear (s : RState) (i : Nat) : RState :=
  s.set i { s.getD i default with children := [], grad_value := none }

/-- `Rnode.grad` (`rnode.py` lines 55–93): if `grad_value` is `None`,
compute `sum(weight * var.grad() for weight, var in self.children)` —
a left-to-right fold in which each recursive call may cache into the
state — store it in `grad_value` and return it.  The recursion is
fuel-indexed; on the acyclic graphs the forward pass builds, fuel equal
to the node count suffices and the fuel-exhausted branch is never hit. -/
def gradAux : Nat → RState → Nat → ℚ × RState
  | 0, s, _ => (0, s)
  | fuel + 1, s, i =>
    match gradAt s i with
    | some g => (g, s)
    | none =>
      let p := (childrenAt s i).foldl
        (fun acc wc =>
          let r := gradAux fuel acc.2 wc.2
          (acc.1 + wc.1 * r.1, r.2)) ((0 : ℚ), s)
      (p.1, setGrad p.2 i p.1)
termination_by structural fuel => fuel

namespace Rnode

/-- `Rnode.__add__`, Rnode case (`rnode.py` lines 122–125). -/
def add (s : RState) (i j : Nat) : RState × Nat :=
  record s (valueAt s i + valueAt s j) [(1, i), (1, j)]

/-- `Rnode.__add__`, constant case (lines 126–128); `__radd__` delegates here. -/
def addC (s : RState) (i : Nat) (c : ℚ) : RState × Nat :=
  record s (valueAt s i + c) [(1, i)]

/-- `Rnode.__sub__`, Rnode case (lines 187–190). -/
def sub (s : RState) (i j : Nat) : RState × Nat :=
  record s (valueAt s i - valueAt s j) [(1, i), (-1, j)]

/-- `Rnode.__sub__`, constant case (lines 191–193). -/
def subC (s : RState) (i : Nat) (c : ℚ) : RState × Nat :=
  record s (valueAt s i - c) [(1, i)]

/-- `Rnode.__rsub__` (lines 196–221): the source delegates to `__sub__`,
so `c - r` computes `r.value - c` with edge weight `+1`. -/
def rsubC (s : RState) (i : Nat) (c : ℚ) : RState × Nat :=
  subC s i c

/-- `Rnode.__mul__`, Rnode case (lines 252–255). -/
def mul (s : RState) (i j : Nat) : RState × Nat :=
  record s (valueAt s i * valueAt s j) [(valueAt s j, i), (valueAt s i, j)]

/-- `Rnode.__mul__`, constant case (lines 256–258); `__rmul__` delegates here. -/
def mulC (s : RState) (i : Nat) (c : ℚ) : RState × Nat :=
  record s (valueAt s i * c) [(c, i)]

/-- `Rnode.__truediv__`, Rnode case (lines 387–390).  Python raises
`ZeroDivisionError` before any append when the divisor is zero; `ℚ`
totalises division with `0`, which leaves every appended-edge invariant
below unaffected. -/
def div (s : RState) (i j : Nat) : RState × Nat :=
  record s (valueAt s i / valueAt s j)
    [(1 / valueAt s j, i), (-(valueAt s i) / (valueAt s j) ^ 2, j)]

/-- `Rnode.__truediv__`, constant case (lines 391–393). -/
def divC (s : RState) (i : Nat) (c : ℚ) : RState × Nat :=
  record s (valueAt s i / c) [(1 / c, i)]

/-- `Rnode.__rtruediv__` (lines 396–428): `c / r` with edge weight
`-c / r.value²`. -/
def rdivC (s : RState) (i : Nat) (c : ℚ) : RState × Nat :=
  record s (c / valueAt s i) [(-c / (valueAt s i) ^ 2, i)]

/-- `Rnode.__pow__`, constant integer exponent case (lines 320–322):
value `self.value ** n`, edge weight `n * self.value ** (n - 1)`. -/
def powC (s : RState) (i : Nat) (n : ℤ) : RState × Nat :=
  record s (valueAt s i ^ n) [((n : ℚ) * valueAt s i ^ (n - 1), i)]

/-- `Rnode.__pow__`, Rnode case (lines 316–319), with the real-valued
power and logarithm abstracted as `pf` and `lf`. -/
def pow (pf : ℚ → ℚ → ℚ) (lf : ℚ → ℚ) (s : RState) (i j : Nat) : RState × Nat :=
  record s (pf (valueAt s i) (valueAt s j))
    [(valueAt s j * pf (valueAt s i) (valueAt s j - 1), i),
     (pf (valueAt s i) (valueAt s j) * lf (valueAt s i), j)]

/-- `Rnode.__rpow__` (lines 325–356): `c ** r`, with the real power and
logarithm abstracted. -/
def rpowC (pf : ℚ → ℚ → ℚ) (lf : ℚ → ℚ) (s : RState) (i : Nat) (c : ℚ) : RState × Nat :=
  record s (pf c (valueAt s i)) [(pf c (valueAt s i) * lf c, i)]

/-- `Rnode.__neg__` (lines 430–457). -/
def neg (s : RState) (i : Nat) : RState × Nat :=
  record s (-(valueAt s i)) [(-1, i)]

/-- `Rnode.__pos__` (lines 459–486). -/
def pos (s : RState) (i : Nat) : RState × Nat :=
  record s (valueAt s i) [(1, i)]

end Rnode

/-- A forward-mode dual number, mirroring `Dual.__init__`
(`dual.py` lines 20–43); the claims under check use scalar derivatives. -/
structure Dual where
  val : ℚ
  der : ℚ
deriving DecidableEq, Repr

namespace Dual

/-- `Dual.__add__`, Dual case (`dual.py` line 134). -/
def add (a b : Dual) : Dual := ⟨a.val + b.val, a.der + b.der⟩

/-- `Dual.__add__`, constant case (line 136): the derivative is untouched. -/
def addC (a : Dual) (c : ℚ) : Dual := ⟨a.val + c, a.der⟩

/-- `Dual.__sub__`, Dual case (line 197). -/
def sub (a b : Dual) : Dual := ⟨a.val - b.val, a.der - b.der⟩

/-- `Dual.__sub__`, constant case (line 199): the source computes
`Dual(self._val - x, self._der - x)`, subtracting the constant from the
derivative as well. -/
def subC (a : Dual) (c : ℚ) : Dual := ⟨a.val - c, a.der - c⟩

/-- `Dual.__rsub__`, Dual case (line 230). -/
def rsub (b a : Dual) : Dual := ⟨b.val - a.val, b.der - a.der⟩

/-- `Dual.__rsub__`, constant case (line 232): the source computes
`Dual(x - self._val, x - self._der)`. -/
def rsubC (c : ℚ) (a : Dual) : Dual := ⟨c - a.val, c - a.der⟩

/-- `Dual.__mul__`, Dual case (line 265). -/
def mul (a b : Dual) : Dual := ⟨a.val * b.val, a.der * b.val + a.val * b.der⟩

/-- `Dual.__mul__`, constant case (line 267). -/
def mulC (a : Dual) (c : ℚ) : Dual := ⟨a.val * c, a.der * c⟩

/-- `Dual.__neg__` (line 452). -/
def neg (a : Dual) : Dual := ⟨-a.val, -a.der⟩

end Dual

namespace Elem

/-- `elem.py` `log`, Rnode branch (lines 84–87): `z = Rnode(np.log(x.value))`
with edge weight `1 / x.value`, and no domain check at all — `np.log` of a
non-positive float yields `nan`/`-inf` without raising.  The real-valued
`np.log` is abstracted as `lf`. -/
def logRnode (lf : ℚ → ℚ) (s : RState) (i : Nat) : RState × Nat :=
  record s (lf (valueAt s i)) [(1 / valueAt s i, i)]

/-- `elem.py` `log`, Dual branch (lines 89–92): raises
`ValueError('Domain of logarithm is {x > 0}')` when `x._val <= 0`,
otherwise returns `Dual(np.log(x._val), (1/x._val) * x._der)`. -/
def logDual (lf : ℚ → ℚ) (x : Dual) : Except String Dual :=
  if x.val ≤ 0 then .error ("Domain of logarithm is \x7bx > 0\x7d")
  else .ok ⟨lf x.val, (1 / x.val) * x.der⟩

/-- `elem.py` `log2`, Rnode branch (lines 129–132): edge weight
`1/(x.value * np.log(2))`; again no domain check.  `l2` abstracts
`np.log2` and `ln2` the constant `np.log(2)`. -/
def log2Rnode (l2 : ℚ → ℚ) (ln2 : ℚ) (s : RState) (i : Nat) : RState × Nat :=
  record s (l2 (valueAt s i)) [(1 / (valueAt s i * ln2), i)]

/-- `elem.py` `log2`, Dual branch (lines 134–137): same guard and message
as `log`. -/
def log2Dual (l2 : ℚ → ℚ) (ln2 : ℚ) (x : Dual) : Except String Dual :=
  if x.val ≤ 0 then .error ("Domain of logarithm is \x7bx > 0\x7d")
  else .ok ⟨l2 x.val, (1 / (x.val * ln2)) * x.der⟩

/-- `elem.py` `sin`, Rnode branch (lines 23–26), with `np.sin`/`np.cos`
abstracted as `sf`/`cf`. -/
def sinRnode (sf cf : ℚ → ℚ) (s : RState) (i : Nat) : RState × Nat :=
  record s (sf (valueAt s i)) [(cf (valueAt s i), i)]

/-- `elem.py` `relu6`, Rnode branch (lines 236–244): `a = max(0, x.value)`;
`b = np.where(0.0 < a < 6.0, 1, 0)` computed from the unclipped `a`;
then `a` is clipped to 6 and the edge `(b, z)` is appended. -/
def relu6Rnode (s : RState) (i : Nat) : RState × Nat :=
  let a := max 0 (valueAt s i)
  let b : ℚ := if 0 < a ∧ a < 6 then 1 else 0
  let a2 := if 6 < a then 6 else a
  record s a2 [(b, i)]

/-- `elem.py` `relu6`, Dual branch (lines 246–251): same `a`, `b` and clip,
returning `Dual(a, b * x.der)`. -/
def relu6Dual (x : Dual) : Dual :=
  let a := max 0 x.val
  let b : ℚ := if 0 < a ∧ a < 6 then 1 else 0
  let a2 := if 6 < a then 6 else a
  ⟨a2, b * x.der⟩

/-- `elem.py` `relu6`, plain numeric branch (line 253): `min(max(0, x), 6)`. -/
def relu6Num (q : ℚ) : ℚ := min (max 0 q) 6

/-- `elem.py` `logistic`, Rnode branch (lines 265–270), with `np.exp`
abstracted as `ef`. -/
def logisticRnode (ef : ℚ → ℚ) (s : RState) (i : Nat) : RState × Nat :=
  record s (1 / (1 + ef (-(valueAt s i))))
    [(ef (valueAt s i) / (1 + ef (valueAt s i)) ^ 2, i)]

/-- `elem.py` `logistic`, Dual branch (line 273): the source line reads
`return(1 / (1 + np.exp(-x.val)), np.exp(x.val) / ((1 + np.exp(x.val)) ** 2))`,
a plain Python tuple — not a `Dual`, and `x.der` is never read. -/
def logisticDual (ef : ℚ → ℚ) (x : Dual) : ℚ × ℚ :=
  (1 / (1 + ef (-x.val)), ef x.val / (1 + ef x.val) ^ 2)

/-- `elem.py` `logistic`, plain numeric branch (line 275). -/
def logisticNum (ef : ℚ → ℚ) (q : ℚ) : ℚ := 1 / (1 + ef (-q))

end Elem

/-! Basic facts about `List.getD` and `List.set`, used to reason about the
node heap. -/

theorem getD_set_same {α : Type _} (l : List α) (i : Nat) (a d : α)
    (h : i < l.length) : (l.set i a).getD i d = a := by
  rw [List.getD_eq_getElem?_getD, List.getElem?_set_eq_of_lt a h, Option.getD_some]

theorem getD_set_other {α : Type _} (l : List α) {i j : Nat} (a d : α)
    (h : j ≠ i) : (l.set i a).getD j d = l.getD j d := by
  rw [List.getD_eq_getElem?_getD, List.getD_eq_getElem?_getD,
    List.getElem?_set_ne (Ne.symm h)]

theorem getD_append_end {α : Type _} (l : List α) (a d : α) :
    (l ++ [a]).getD l.length d = a := by
  rw [List.getD_append_right l [a] d l.length le_rfl, Nat.sub_self]
  rfl

/-- The append-only contract of one forward-pass operation on the node heap
`s`: the returned id is fresh, every pre-existing node keeps its value and
cached gradient and has its children list changed only by appending, and the
new node starts with no children and no cached gradient. -/
def appendOnlyStep (s : RState) (r : RState × Nat) : Prop :=
  r.2 = s.length ∧
  r.1.length = s.length + 1 ∧
  (∀ i, i < s.length →
    valueAt r.1 i = valueAt s i ∧ gradAt r.1 i = gradAt s i ∧
    ∃ u, childrenAt r.1 i = childrenAt s i ++ u) ∧
  childrenAt r.1 r.2 = [] ∧ gradAt r.1 r.2 = none

/-- The intermediate invariant while the edge appends of `record` run: `t` is
the heap after the fresh node was pushed and some of the appends happened. -/
def midRecord (s : RState) (z : Nat) (t : RState) : Prop :=
  t.length = s.length + 1 ∧
  (∀ i, i < s.length →
    valueAt t i = valueAt s i ∧ gradAt t i = gradAt s i ∧
    ∃ u, childrenAt t i = childrenAt s i ++ u) ∧
  childrenAt t z = [] ∧ gradAt t z = none

theorem length_appendEdge (t : RState) (j : Nat) (w : ℚ) (z : Nat) :
    (appendEdge t j w z).length = t.length := List.length_set t j _

theorem valueAt_appendEdge_same (t : RState) (j : Nat) (w : ℚ) (z : Nat)
    (h : j < t.length) : valueAt (appendEdge t j w z) j = valueAt t j := by
  unfold valueAt appendEdge
  rw [getD_set_same _ _ _ _ h]

theorem gradAt_appendEdge_same (t : RState) (j : Nat) (w : ℚ) (z : Nat)
    (h : j < t.length) : gradAt (appendEdge t j w z) j = gradAt t j := by
  unfold gradAt appendEdge
  rw [getD_set_same _ _ _ _ h]

theorem childrenAt_appendEdge_same (t : RState) (j : Nat) (w : ℚ) (z : Nat)
    (h : j < t.length) :
    childrenAt (appendEdge t j w z) j = childrenAt t j ++ [(w, z)] := by
  unfold childrenAt appendEdge
  rw [getD_set_same _ _ _ _ h]

theorem valueAt_appendEdge_other (t : RState) {i j : Nat} (w : ℚ) (z : Nat)
    (h : i ≠ j) : valueAt (appendEdge t j w z) i = valueAt t i := by
  unfold valueAt appendEdge
  rw [getD_set_other _ _ _ h]

theorem gradAt_appendEdge_other (t : RState) {i j : Nat} (w : ℚ) (z : Nat)
    (h : i ≠ j) : gradAt (appendEdge t j w z) i = gradAt t i := by
  unfold gradAt appendEdge
  rw [getD_set_other _ _ _ h]

theorem childrenAt_appendEdge_other (t : RState) {i j : Nat} (w : ℚ) (z : Nat)
    (h : i ≠ j) : childrenAt (appendEdge t j w z) i = childrenAt t i := by
  unfold childrenAt appendEdge
  rw [getD_set_other _ _ _ h]

theorem midRecord_appendEdge {s t : RState} {z : Nat} (hz : z = s.length)
    {j : Nat} (hj : j < s.length) (w : ℚ) (h : midRecord s z t) :
    midRecord s z (appendEdge t j w z) := by
  obtain ⟨hlen, hold, hcz, hgz⟩ := h
  have hjt : j < t.length := hlen ▸ Nat.lt_succ_of_lt hj
  refine ⟨by rw [length_appendEdge, hlen], ?_, ?_, ?_⟩
  · intro i hi
    obtain ⟨hv, hg, u, hc⟩ := hold i hi
    by_cases hij : i = j
    · subst hij
      refine ⟨?_, ?_, u ++ [(w, z)], ?_⟩
      · rw [valueAt_appendEdge_same _ _ _ _ hjt, hv]
      · rw [gradAt_appendEdge_same _ _ _ _ hjt, hg]
      · rw [childrenAt_appendEdge_same _ _ _ _ hjt, hc, List.append_assoc]
    · exact ⟨by rw [valueAt_appendEdge_other _ _ _ hij, hv],
        by rw [gradAt_appendEdge_other _ _ _ hij, hg],
        u, by rw [childrenAt_appendEdge_other _ _ _ hij, hc]⟩
  · have hzj : z ≠ j := by omega
    rw [childrenAt_appendEdge_other _ _ _ hzj, hcz]
  · have hzj : z ≠ j := by omega
    rw [gradAt_appendEdge_other _ _ _ hzj, hgz]

theorem midRecord_foldl {s : RState} {z : Nat} (hz : z = s.length) :
    ∀ (edges : List (ℚ × Nat)) (t : RState),
      (∀ e ∈ edges, e.2 < s.length) → midRecord s z t →
      midRecord s z (edges.foldl (fun t e => appendEdge t e.2 e.1 z) t)
  | [], _, _, h => h
  | e :: es, t, he, h => by
    rw [List.foldl_cons]
    exact midRecord_foldl hz es _ (fun x hx => he x (List.mem_cons_of_mem e hx))
      (midRecord_appendEdge hz (he e (List.mem_cons_self e es)) e.1 h)

/-- `record` obeys the append-only contract whenever every edge targets an
existing node — which every operator guarantees, its operands being live
nodes of the heap. -/
theorem record_appendOnly (s : RState) (v : ℚ) (edges : List (ℚ × Nat))
    (he : ∀ e ∈ edges, e.2 < s.length) : appendOnlyStep s (record s v edges) := by
  have hstart : midRecord s s.length (s ++ [⟨v, [], none⟩]) := by
    refine ⟨by simp, ?_, ?_, ?_⟩
    · intro i hi
      refine ⟨?_, ?_, [], ?_⟩
      · unfold valueAt
        rw [List.getD_append _ _ _ _ hi]
      · unfold gradAt
        rw [List.getD_append _ _ _ _ hi]
      · unfold childrenAt
        rw [List.getD_append _ _ _ _ hi, List.append_nil]
    · unfold childrenAt
      rw [getD_append_end]
    · unfold gradAt
      rw [getD_append_end]
  have hmid := midRecord_foldl rfl edges _ he hstart
  exact ⟨rfl, hmid.1, hmid.2.1, hmid.2.2.1, hmid.2.2.2⟩

/-- Specialisation of `record_appendOnly` to a one-edge operation. -/
theorem record_appendOnly_one (s : RState) (v w : ℚ) (i : Nat)
    (hi : i < s.length) : appendOnlyStep s (record s v [(w, i)]) :=
  record_appendOnly s v _ (by intro e he; simp at he; simp [he, hi])

/-- Specialisation of `record_appendOnly` to a two-edge operation. -/
theorem record_appendOnly_two (s : RState) (v w₁ w₂ : ℚ) (i j : Nat)
    (hi : i < s.length) (hj : j < s.length) :
    appendOnlyStep s (record s v [(w₁, i), (w₂, j)]) :=
  record_appendOnly s v _ (by
    intro e he
    simp at he
    rcases he with he | he <;> simp [he, hi, hj])

/-! Facts about the backward traversal `gradAux`. -/

/-- The left-to-right accumulation over a children list performed by the
`sum(...)` generator inside `Rnode.grad`, threading the mutated heap. -/
def gradChildren (fuel : Nat) (s : RState) (cs : List (ℚ × Nat)) : ℚ × RState :=
  cs.foldl
    (fun acc wc =>
      let r := gradAux fuel acc.2 wc.2
      (acc.1 + wc.1 * r.1, r.2)) ((0 : ℚ), s)

theorem gradAux_succ (fuel : Nat) (s : RState) (i : Nat) :
    gradAux (fuel + 1) s i =
      match gradAt s i with
      | some g => (g, s)
      | none =>
        let p := gradChildren fuel s (childrenAt s i)
        (p.1, setGrad p.2 i p.1) := by
  rw [gradAux]
  rfl

theorem gradAux_cached (fuel : Nat) (s : RState) (i : Nat) (g : ℚ)
    (h : gradAt s i = some g) : gradAux (fuel + 1) s i = (g, s) := by
  rw [gradAux_succ, h]

theorem gradAux_not_cached (fuel : Nat) (s : RState) (i : Nat)
    (h : gradAt s i = none) :
    gradAux (fuel + 1) s i =
      ((gradChildren fuel s (childrenAt s i)).1,
        setGrad (gradChildren fuel s (childrenAt s i)).2 i
          (gradChildren fuel s (childrenAt s i)).1) := by
  rw [gradAux_succ, h]

theorem length_setGrad (s : RState) (i : Nat) (g : ℚ) :
    (setGrad s i g).length = s.length := List.length_set s i _

theorem gradAt_setGrad_same (s : RState) (i : Nat) (g : ℚ) (h : i < s.length) :
    gradAt (setGrad s i g) i = some g := by
  unfold gradAt setGrad
  rw [getD_set_same _ _ _ _ h]

/-- The backward traversal never allocates or drops nodes: it only fills
`grad_value` caches, so the heap keeps its length. -/
theorem length_gradAux :
    ∀ (fuel : Nat) (s : RState) (i : Nat), ((gradAux fuel s i).2).length = s.length := by
  intro fuel
  induction fuel with
  | zero => intro s i; rfl
  | succ n ih =>
    intro s i
    have hfold : ∀ (cs : List (ℚ × Nat)) (acc : ℚ × RState),
        ((cs.foldl
          (fun acc wc =>
            let r := gradAux n acc.2 wc.2
            (acc.1 + wc.1 * r.1, r.2)) acc).2).length = acc.2.length := by
      intro cs
      induction cs with
      | nil => intro acc; rfl
      | cons e es ihe =>
        intro acc
        rw [List.foldl_cons, ihe]
        exact ih acc.2 e.2
    rw [gradAux_succ]
    cases h : gradAt s i with
    | some g => rfl
    | none =>
      show (setGrad (gradChildren n s (childrenAt s i)).2 i _).length = s.length
      rw [length_setGrad]
      exact hfold (childrenAt s i) ((0 : ℚ), s)

theorem length_gradFold (fuel : Nat) :
    ∀ (cs : List (ℚ × Nat)) (acc : ℚ × RState),
      ((cs.foldl
        (fun acc wc =>
          let r := gradAux fuel acc.2 wc.2
          (acc.1 + wc.1 * r.1, r.2)) acc).2).length = acc.2.length := by
  intro cs
  induction cs with
  | nil => intro acc; rfl
  | cons e es ihe =>
    intro acc
    rw [List.foldl_cons, ihe]
    exact length_gradAux fuel acc.2 e.2

theorem length_gradChildren (fuel : Nat) (s : RState) (cs : List (ℚ × Nat)) :
    ((gradChildren fuel s cs).2).length = s.length :=
  length_gradFold fuel cs ((0 : ℚ), s)

/-! The claims. -/

/-- C1: `Rnode.grad` is a memoized recursive sum: with grad cached it
returns the cache and leaves the heap alone; with no cache it returns the
left-to-right sum of `weight * child.grad()` over the children edges and
caches that sum; and for `z = x*x + x` built from `x = Rnode(0.11)` with
`z.grad_value` seeded to `1.0`, `x.grad()` equals `2*0.11 + 1 = 1.22`
(the node consumed by both factors of `x*x` and by the addition accumulates
all three per-parent contributions). -/
theorem rnode_grad_memoized_sum :
    (∀ (fuel : Nat) (s : RState) (i : Nat) (g : ℚ),
        gradAt s i = some g → gradAux (fuel + 1) s i = (g, s)) ∧
    (∀ (fuel : Nat) (s : RState) (i : Nat), gradAt s i = none → i < s.length →
        gradAux (fuel + 1) s i =
          ((gradChildren fuel s (childrenAt s i)).1,
            setGrad (gradChildren fuel s (childrenAt s i)).2 i
              (gradChildren fuel s (childrenAt s i)).1) ∧
        gradAt ((gradAux (fuel + 1) s i).2) i = some ((gradAux (fuel + 1) s i).1)) ∧
    (let s0 : RState := [⟨11/100, [], none⟩]
     let p1 := Rnode.mul s0 0 0
     let p2 := Rnode.add p1.1 p1.2 0
     let s3 := setGrad p2.1 p2.2 1
     (gradAux 10 s3 0).1 = 61/50) := by
  refine ⟨fun fuel s i g h => gradAux_cached fuel s i g h, ?_, ?_⟩
  · intro fuel s i h hi
    refine ⟨gradAux_not_cached fuel s i h, ?_⟩
    rw [gradAux_not_cached fuel s i h]
    exact gradAt_setGrad_same _ i _ (by rw [length_gradChildren]; exact hi)
  · with_unfolding_all decide

/-- Witness for C1: a node with a cached gradient of 3 returns it and the
heap is untouched. -/
theorem rnode_grad_memoized_sum_witness :
    gradAux 1 [⟨(5 : ℚ), [], some 3⟩] 0 = (3, [⟨(5 : ℚ), [], some 3⟩]) :=
  rnode_grad_memoized_sum.1 0 [⟨(5 : ℚ), [], some 3⟩] 0 3 rfl

/-- C2 (code bug): `Dual.__sub__` with a constant subtracts the constant
from the derivative too: `Dual(5, 1) - 1/2` yields derivative `1/2`, not
the untouched `1`. -/
theorem dual_sub_const_changes_der :
    Dual.subC ⟨5, 1⟩ (1/2) = ⟨9/2, 1/2⟩ ∧ (Dual.subC ⟨5, 1⟩ (1/2)).der ≠ 1 := by
  with_unfolding_all decide

/-- C3 (code bug): `Dual.__rsub__` with a constant computes
`Dual(c - val, c - der)`: `5.5 - Dual(5, 1)` has the right value `0.5` but
derivative `4.5`, not the correct `-1`. -/
theorem dual_rsub_const_wrong_der :
    Dual.rsubC (11/2) ⟨5, 1⟩ = ⟨1/2, 9/2⟩ ∧
    (Dual.rsubC (11/2) ⟨5, 1⟩).der ≠ -1 := by
  with_unfolding_all decide

/-- C4 (code bug): `Rnode.__rsub__` delegates to `__sub__`, so
`4 - Rnode(2)` produces a node of value `2 - 4 = -2` (not `4 - 2 = 2`) and
appends an edge of weight `+1` (not the local partial `-1`). -/
theorem rnode_rsub_delegates_to_sub :
    Rnode.rsubC ([⟨2, [], none⟩] : RState) 0 4 =
      ([⟨2, [(1, 1)], none⟩, ⟨-2, [], none⟩], 1) ∧
    valueAt (Rnode.rsubC ([⟨2, [], none⟩] : RState) 0 4).1 1 ≠ 4 - 2 ∧
    childrenAt (Rnode.rsubC ([⟨2, [], none⟩] : RState) 0 4).1 0 ≠ [(-1, 1)] := by
  with_unfolding_all decide

/-- C5: the clear round trip.  `x = Rnode(0.11)`, `y = x**2`, seed, read
`x.grad() = 0.22`; then `x.clear()`, `y1 = x**2 + x`, seed, and `x.grad()`
is `1.22` — the second gradient alone, no edges left over from the first
graph. -/
theorem rnode_clear_roundtrip :
    (let s0 : RState := [⟨11/100, [], none⟩]
     let p1 := Rnode.powC s0 0 2
     let s2 := setGrad p1.1 p1.2 1
     let g1 := gradAux 10 s2 0
     let s3 := clear g1.2 0
     let p2 := Rnode.powC s3 0 2
     let p3 := Rnode.add p2.1 p2.2 0
     let s4 := setGrad p3.1 p3.2 1
     g1.1 = 11/50 ∧ (gradAux 10 s4 0).1 = 61/50) := by
  with_unfolding_all decide

/-- C6 (code bug): the logarithm domain guard exists only on the Dual
branch.  `log` and `log2` on a Dual with value ≤ 0 raise the
`ValueError` whose message contains "logarithm"; but the Rnode branch has
no guard at all — `log(Rnode(-1))` returns a fresh node (value `np.log(-1)`,
a NaN in Python) instead of raising. -/
theorem log_domain_guard_dual_branch_only :
    (∀ (lf : ℚ → ℚ) (x : Dual), x.val ≤ 0 →
        Elem.logDual lf x = Except.error ("Domain of logarithm is \x7bx > 0\x7d")) ∧
    (∀ (l2 : ℚ → ℚ) (c : ℚ) (x : Dual), x.val ≤ 0 →
        Elem.log2Dual l2 c x = Except.error ("Domain of logarithm is \x7bx > 0\x7d")) ∧
    (∃ p q : String, "Domain of logarithm is \x7bx > 0\x7d" = p ++ "logarithm" ++ q) ∧
    (∀ lf : ℚ → ℚ,
        Elem.logRnode lf ([⟨-1, [], none⟩] : RState) 0 =
          ([⟨-1, [(-1, 1)], none⟩, ⟨lf (-1), [], none⟩], 1)) := by
  refine ⟨?_, ?_, ⟨"Domain of ", " is \x7bx > 0\x7d", rfl⟩, ?_⟩
  · intro lf x h
    unfold Elem.logDual
    rw [if_pos h]
  · intro l2 c x h
    unfold Elem.log2Dual
    rw [if_pos h]
  · intro lf
    with_unfolding_all rfl

/-- Witness for C6: `log(Dual(-1, 1))` raises the logarithm ValueError. -/
theorem log_domain_guard_witness :
    Elem.logDual (fun q => q) ⟨-1, 1⟩ =
      Except.error ("Domain of logarithm is \x7bx > 0\x7d") :=
  log_domain_guard_dual_branch_only.1 (fun q => q) ⟨-1, 1⟩
    (by with_unfolding_all decide)

/-- C7 (code bug): `logistic` on a Dual returns a plain tuple, not a Dual,
and never reads `x.der` (no chain rule): the result is the pair
`(logistic(val), logistic'(val))` whatever the derivative of the input, so
with `exp` pinned to the constant function `1` the input `Dual(0, 4)` gives
the pair `(1/2, 1/4)` where the claim demands `Dual(1/2, 1/4 * 4)`. -/
theorem logistic_dual_returns_pair :
    (∀ (ef : ℚ → ℚ) (v d₁ d₂ : ℚ),
        Elem.logisticDual ef ⟨v, d₁⟩ = Elem.logisticDual ef ⟨v, d₂⟩) ∧
    Elem.logisticDual (fun _ => 1) ⟨0, 4⟩ = (1/2, 1/4) := by
  refine ⟨fun ef v d₁ d₂ => rfl, ?_⟩
  with_unfolding_all decide

/-- C8 counterexample: at value 7 > 6, `relu6` on a Dual clips the value to
6 but the derivative is `0`, not `1` times the incoming derivative as the
claim states — `b = np.where(0.0 < a < 6.0, 1, 0)` is computed from the
unclipped `a = 7`, which fails `a < 6.0`. -/
theorem relu6_above_six_weight_zero_cex :
    Elem.relu6Dual ⟨7, 1⟩ = ⟨6, 0⟩ ∧ (Elem.relu6Dual ⟨7, 1⟩).der ≠ 1 := by
  with_unfolding_all decide

/-- C8 amended: for every input of value strictly above 6, `relu6` clips
the output value to 6 and the derivative (Dual case), recorded edge weight
(Rnode case) is `0`; the plain numeric case returns 6. -/
theorem relu6_clips_and_zeroes_weight :
    (∀ x : Dual, 6 < x.val → Elem.relu6Dual x = ⟨6, 0⟩) ∧
    (∀ (s : RState) (i : Nat), 6 < valueAt s i →
        Elem.relu6Rnode s i = record s 6 [(0, i)]) ∧
    (∀ q : ℚ, 6 < q → Elem.relu6Num q = 6) := by
  have hb : ∀ v : ℚ, 6 < v →
      max 0 v = v ∧ ¬(0 < max 0 v ∧ max 0 v < 6) ∧ 6 < max 0 v := by
    intro v h
    have h0 : (0 : ℚ) ≤ v := le_of_lt (lt_trans (by norm_num) h)
    have hm : max 0 v = v := max_eq_right h0
    refine ⟨hm, ?_, ?_⟩ <;> rw [hm]
    · rintro ⟨-, h2⟩
      exact absurd h (not_lt.mpr (le_of_lt h2))
    · exact h
  refine ⟨?_, ?_, ?_⟩
  · intro x h
    obtain ⟨hm, hcond, hgt⟩ := hb x.val h
    show (⟨if 6 < max 0 x.val then 6 else max 0 x.val,
      (if 0 < max 0 x.val ∧ max 0 x.val < 6 then (1 : ℚ) else 0) * x.der⟩ : Dual)
      = ⟨6, 0⟩
    rw [if_pos hgt, if_neg hcond, zero_mul]
  · intro s i h
    obtain ⟨hm, hcond, hgt⟩ := hb (valueAt s i) h
    show record s (if 6 < max 0 (valueAt s i) then 6 else max 0 (valueAt s i))
      [((if 0 < max 0 (valueAt s i) ∧ max 0 (valueAt s i) < 6 then (1 : ℚ) else 0), i)]
      = record s 6 [(0, i)]
    rw [if_pos hgt, if_neg hcond]
  · intro q h
    obtain ⟨hm, -, -⟩ := hb q h
    show min (max 0 q) 6 = 6
    rw [hm]
    exact min_eq_right (le_of_lt h)

/-- Witness for the amended C8: `relu6(7) = 6` in the numeric branch. -/
theorem relu6_clips_and_zeroes_weight_witness :
    Elem.relu6Num 7 = 6 :=
  relu6_clips_and_zeroes_weight.2.2 7 (by norm_num)

/-- C9: forward-pass recording is append-only and non-destructive.  Every
embedded Rnode operator — add, sub, mul, truediv, pow, their reversed and
constant forms, neg, pos — and every elementary-function Rnode branch
leaves each live node's value and `grad_value` untouched, only appends to
children lists, and returns a fresh node with empty children and no cached
gradient. -/
theorem rnode_ops_append_only :
    (∀ (s : RState) (i j : Nat), i < s.length → j < s.length →
        appendOnlyStep s (Rnode.add s i j)) ∧
    (∀ (s : RState) (i : Nat) (c : ℚ), i < s.length →
        appendOnlyStep s (Rnode.addC s i c)) ∧
    (∀ (s : RState) (i j : Nat), i < s.length → j < s.length →
        appendOnlyStep s (Rnode.sub s i j)) ∧
    (∀ (s : RState) (i : Nat) (c : ℚ), i < s.length →
        appendOnlyStep s (Rnode.subC s i c)) ∧
    (∀ (s : RState) (i : Nat) (c : ℚ), i < s.length →
        appendOnlyStep s (Rnode.rsubC s i c)) ∧
    (∀ (s : RState) (i j : Nat), i < s.length → j < s.length →
        appendOnlyStep s (Rnode.mul s i j)) ∧
    (∀ (s : RState) (i : Nat) (c : ℚ), i < s.length →
        appendOnlyStep s (Rnode.mulC s i c)) ∧
    (∀ (s : RState) (i j : Nat), i < s.length → j < s.length →
        appendOnlyStep s (Rnode.div s i j)) ∧
    (∀ (s : RState) (i : Nat) (c : ℚ), i < s.length →
        appendOnlyStep s (Rnode.divC s i c)) ∧
    (∀ (s : RState) (i : Nat) (c : ℚ), i < s.length →
        appendOnlyStep s (Rnode.rdivC s i c)) ∧
    (∀ (s : RState) (i : Nat) (n : ℤ), i < s.length →
        appendOnlyStep s (Rnode.powC s i n)) ∧
    (∀ (pf : ℚ → ℚ → ℚ) (lf : ℚ → ℚ) (s : RState) (i j : Nat),
        i < s.length → j < s.length → appendOnlyStep s (Rnode.pow pf lf s i j)) ∧
    (∀ (pf : ℚ → ℚ → ℚ) (lf : ℚ → ℚ) (s : RState) (i : Nat) (c : ℚ),
        i < s.length → appendOnlyStep s (Rnode.rpowC pf lf s i c)) ∧
    (∀ (s : RState) (i : Nat), i < s.length → appendOnlyStep s (Rnode.neg s i)) ∧
    (∀ (s : RState) (i : Nat), i < s.length → appendOnlyStep s (Rnode.pos s i)) ∧
    (∀ (sf cf : ℚ → ℚ) (s : RState) (i : Nat), i < s.length →
        appendOnlyStep s (Elem.sinRnode sf cf s i)) ∧
    (∀ (lf : ℚ → ℚ) (s : RState) (i : Nat), i < s.length →
        appendOnlyStep s (Elem.logRnode lf s i)) ∧
    (∀ (l2 : ℚ → ℚ) (c : ℚ) (s : RState) (i : Nat), i < s.length →
        appendOnlyStep s (Elem.log2Rnode l2 c s i)) ∧
    (∀ (s : RState) (i : Nat), i < s.length →
        appendOnlyStep s (Elem.relu6Rnode s i)) ∧
    (∀ (ef : ℚ → ℚ) (s : RState) (i : Nat), i < s.length →
        appendOnlyStep s (Elem.logisticRnode ef s i)) := by
  refine ⟨fun s i j hi hj => record_appendOnly_two s _ _ _ i j hi hj,
    fun s i c hi => record_appendOnly_one s _ _ i hi,
    fun s i j hi hj => record_appendOnly_two s _ _ _ i j hi hj,
    fun s i c hi => record_appendOnly_one s _ _ i hi,
    fun s i c hi => record_appendOnly_one s _ _ i hi,
    fun s i j hi hj => record_appendOnly_two s _ _ _ i j hi hj,
    fun s i c hi => record_appendOnly_one s _ _ i hi,
    fun s i j hi hj => record_appendOnly_two s _ _ _ i j hi hj,
    fun s i c hi => record_appendOnly_one s _ _ i hi,
    fun s i c hi => record_appendOnly_one s _ _ i hi,
    fun s i n hi => record_appendOnly_one s _ _ i hi,
    fun pf lf s i j hi hj => record_appendOnly_two s _ _ _ i j hi hj,
    fun pf lf s i c hi => record_appendOnly_one s _ _ i hi,
    fun s i hi => record_appendOnly_one s _ _ i hi,
    fun s i hi => record_appendOnly_one s _ _ i hi,
    fun sf cf s i hi => record_appendOnly_one s _ _ i hi,
    fun lf s i hi => record_appendOnly_one s _ _ i hi,
    fun l2 c s i hi => record_appendOnly_one s _ _ i hi,
    fun s i hi => record_appendOnly_one s _ _ i hi,
    fun ef s i hi => record_appendOnly_one s _ _ i hi⟩

/-- Witness for C9: the addition `Rnode(1) + Rnode(1)` (a node added to
itself) obeys the append-only contract on a one-node heap. -/
theorem rnode_ops_append_only_witness :
    appendOnlyStep ([⟨1, [], none⟩] : RState)
      (Rnode.add ([⟨1, [], none⟩] : RState) 0 0) :=
  rnode_ops_append_only.1 ([⟨1, [], none⟩] : RState) 0 0 (by decide) (by decide)

/-- C10: calling `grad()` on a node with no cached gradient and no children
— an output node never seeded — returns 0 and caches 0, raising no error. -/
theorem rnode_grad_unseeded_zero (s : RState) (fuel i : Nat)
    (hg : gradAt s i = none) (hc : childrenAt s i = []) (hi : i < s.length) :
    gradAux (fuel + 1) s i = (0, setGrad s i 0) ∧
    gradAt ((gradAux (fuel + 1) s i).2) i = some 0 := by
  have h1 : gradChildren fuel s (childrenAt s i) = ((0 : ℚ), s) := by
    rw [hc]
    rfl
  refine ⟨?_, ?_⟩
  · rw [gradAux_not_cached fuel s i hg, h1]
  · rw [gradAux_not_cached fuel s i hg, h1]
    exact gradAt_setGrad_same s i 0 hi

/-- Witness for C10: an unseeded isolated node yields gradient 0 and the
zero is cached. -/
theorem rnode_grad_unseeded_zero_witness :
    gradAux 1 ([⟨7, [], none⟩] : RState) 0 =
      (0, setGrad ([⟨7, [], none⟩] : RState) 0 0) ∧
    gradAt ((gradAux 1 ([⟨7, [], none⟩] : RState) 0).2) 0 = some 0 :=
  rnode_grad_unseeded_zero ([⟨7, [], none⟩] : RState) 0 0 rfl rfl (by decide)

end Farad
